import Mathlib

/-!
Shallow embedding of the knowledge-base manager (`knowledge_base_manager.py`)
of the Helpie Slack bot: chunking, the parallel-array store, persistence with
the legacy-pickle fallback, and hybrid (cosine + keyword boost) search.
Machine text is modelled on `List Char`; Python exceptions surface as `Except`.
The sentence-embedding model is opaque: it is a parameter `encode : String → Emb`
together with a cosine-similarity parameter `cosSim : Emb → Emb → ℚ`.
-/

/-- Whitespace test used by the Python `str.split()` / `str.strip()` model. -/
def isWs (c : Char) : Bool := c.isWhitespace

/-- Accumulator-style splitter behind the model of Python `str.split()`:
runs of whitespace separate words, empty pieces never appear. -/
def wordsAux : List Char → List Char → List (List Char)
  | [], acc => if acc.isEmpty then [] else [acc.reverse]
  | c :: rest, acc =>
      if isWs c then
        (if acc.isEmpty then wordsAux rest [] else acc.reverse :: wordsAux rest [])
      else wordsAux rest (c :: acc)

/-- Words of a character list, as Python `str.split()` computes them. -/
def wordsC (l : List Char) : List (List Char) := wordsAux l []

/-- Model of Python `str.split()` on strings. -/
def pyWords (s : String) : List String := (wordsC s.toList).map String.mk

/-- Strip whitespace from both ends of a character list (Python `str.strip()`). -/
def stripChars (l : List Char) : List Char :=
  ((l.dropWhile isWs).reverse.dropWhile isWs).reverse

/-- Model of Python `str.strip()`. -/
def pyStrip (s : String) : String := String.mk (stripChars s.toList)

/-- Model of Python `str.lower()` (ASCII-faithful). -/
def pyLower (s : String) : String := String.mk (s.toList.map Char.toLower)

/-- Join words with single spaces, as `' '.join(words)` does. -/
def joinWords : List (List Char) → List Char
  | [] => []
  | [w] => w
  | w :: ws => w ++ ' ' :: joinWords ws

/-- Boolean test that `nd` starts the list `hay`. -/
def isPreB : List Char → List Char → Bool
  | [], _ => true
  | _ :: _, [] => false
  | a :: as, b :: bs => a == b && isPreB as bs

/-- Boolean substring test, the model of Python `kw in text`. -/
def isSubB (nd : List Char) : List Char → Bool
  | [] => isPreB nd []
  | c :: rest => isPreB nd (c :: rest) || isSubB nd rest

/-- Python exceptions that the embedded code can raise. -/
inductive PyErr where
  | valueError
  | attrError
  deriving DecidableEq, Repr

/-- Start offsets of the windows produced by `range(0, n, step)` for `step > 0`. -/
def winStarts (n step : Nat) : List Nat :=
  (List.range ((n + step - 1) / step)).map (· * step)

/-- Window pass of `_chunk_text`: join each window of `chunkSize` words starting
at multiples of `step`, keeping only windows whose join strips to non-empty. -/
def chunkWindowsC (ws : List (List Char)) (chunkSize step : Nat) : List (List Char) :=
  (winStarts ws.length step).filterMap (fun i =>
    let ch := joinWords ((ws.drop i).take chunkSize)
    if stripChars ch ≠ [] then some ch else none)

/-- Full model of `_chunk_text(text, chunk_size, overlap)`: the Python
`range(0, len(words), chunk_size - overlap)` raises `ValueError` when the step
is zero and is empty when the step is negative; an empty chunk list falls back
to `[text]`. -/
def chunkTextE (text : String) (chunkSize overlap : Nat) : Except PyErr (List String) :=
  let step : Int := (chunkSize : Int) - (overlap : Int)
  if step = 0 then .error .valueError
  else if step < 0 then .ok [text]
  else
    let cs := chunkWindowsC (wordsC text.toList) chunkSize step.toNat
    .ok (if cs.isEmpty then [text] else cs.map String.mk)

/-- The `_chunk_text` call with the default parameters `chunk_size=500, overlap=50`
(step 450), as `add_text` invokes it. -/
def chunkText (text : String) : List String :=
  let cs := chunkWindowsC (wordsC text.toList) 500 450
  if cs.isEmpty then [text] else cs.map String.mk

theorem chunkTextE_default (text : String) :
    chunkTextE text 500 50 = .ok (chunkText text) := by
  simp [chunkTextE, chunkText]

example : pyWords "a  b" = ["a", "b"] := by decide
example : pyStrip "  a b  " = "a b" := by decide
example : chunkText "a  b" = ["a b"] := by decide
example : chunkTextE "a b" 1 1 = .error .valueError := rfl
example : chunkTextE "a b" 3 5 = .ok ["a b"] := rfl

/-- Metadata mapping of a chunk. The Python code stores an open dict; the keys
it ever reads or writes are `collection`, `category`, `source`, `type` and
`chunk_index`, so the model carries exactly those, each optional. -/
structure DocMeta where
  collection : Option String := none
  category : Option String := none
  source : Option String := none
  typeTag : Option String := none
  chunkIndex : Option Nat := none
  deriving DecidableEq, Repr

/-- The in-memory store of `KnowledgeBase`: three parallel arrays. The
embedding type is opaque. -/
structure KB (Emb : Type) where
  documents : List String := []
  metadatas : List DocMeta := []
  embeddings : List Emb := []
  deriving DecidableEq, Repr

/-- Store with all three arrays empty, the state right after `__init__`
before any load. -/
def emptyKB {Emb : Type} : KB Emb := {}

/-- On-disk state of the knowledge-base directory. `metaJson` models
`metadata.json` (`none`: absent; `some none`: present but failing to parse;
`some (some x)`: present and parsing to `x`), `embNpy` models
`embeddings.npy` likewise, and `legacyPkl` records whether the legacy
combined pickle artifact `embeddings.pkl` is present. -/
structure Disk (Emb : Type) where
  metaJson : Option (Option (List String × List DocMeta)) := none
  embNpy : Option (Option (List Emb)) := none
  legacyPkl : Bool := false
  deriving DecidableEq, Repr

/-- Model of `_save_index`: both artifacts are rewritten from the full
in-memory state; the legacy artifact is untouched. -/
def saveIndex {Emb : Type} (kb : KB Emb) (d : Disk Emb) : Disk Emb :=
  { d with
    metaJson := some (some (kb.documents, kb.metadatas))
    embNpy := some (some kb.embeddings) }

/-- Model of `_load_index`. When both current-format artifacts parse, the
three arrays are replaced wholesale. On any failure of the current-format
branch the caught exception falls through to the pickle branch, whose very
first expression reads `self.index_path` — an attribute `__init__` never
defines — so an `AttributeError` escapes. -/
def loadIndex {Emb : Type} (d : Disk Emb) : Except PyErr (KB Emb) :=
  match d.metaJson, d.embNpy with
  | some (some (ds, ms)), some (some es) =>
      .ok { documents := ds, metadatas := ms, embeddings := es }
  | _, _ => .error .attrError

/-- Model of `KnowledgeBase.__init__`: `_load_index` runs only when both
current-format artifacts exist; otherwise the store starts empty and the
disk — the legacy pickle included — is left untouched. -/
def initKB {Emb : Type} (d : Disk Emb) : Except PyErr (KB Emb × Disk Emb) :=
  if d.metaJson.isSome && d.embNpy.isSome then
    (loadIndex d).map (fun kb => (kb, d))
  else .ok (emptyKB, d)

/-- Model of `add_text`: blank text returns early with no append and no save;
otherwise every chunk is appended to the three arrays, with `chunk_index`
stamped into a copy of the metadata argument, and a save follows. The
returned flag records whether `_save_index` was called. -/
def addText {Emb : Type} (encode : String → Emb) (kb : KB Emb)
    (text : String) (metadata : Option DocMeta) : KB Emb × Bool :=
  if pyStrip text = "" then (kb, false)
  else
    let chunks := chunkText text
    ({ documents := kb.documents ++ chunks
       metadatas := kb.metadatas ++
         (List.range chunks.length).map
           (fun i => { metadata.getD {} with chunkIndex := some i })
       embeddings := kb.embeddings ++ chunks.map encode }, true)

/-- Stamp `metadatas[i]['collection'] = c` for every index `i ≥ before`,
the post-file pass of `load_documents_from_folder`. -/
def stampMeta (c : String) (before : Nat) : Nat → List DocMeta → List DocMeta
  | _, [] => []
  | i, m :: rest =>
      (if before ≤ i then { m with collection := some c } else m)
        :: stampMeta c before (i + 1) rest

/-- One file of a folder pass: `add_text` (which saves), then — when a
collection label was resolved — stamp it onto the metadata entries added by
this file. The stamping happens after the save, so the disk keeps the
unstamped metadata until the next save. -/
def ingestFile {Emb : Type} (encode : String → Emb) (col : Option String)
    (st : KB Emb × Disk Emb) (f : String × Option DocMeta) : KB Emb × Disk Emb :=
  match col with
  | none =>
      ((addText encode st.1 f.1 f.2).1,
        if (addText encode st.1 f.1 f.2).2 then
          saveIndex (addText encode st.1 f.1 f.2).1 st.2
        else st.2)
  | some c =>
      ({ (addText encode st.1 f.1 f.2).1 with
          metadatas := stampMeta c st.1.documents.length 0
            (addText encode st.1 f.1 f.2).1.metadatas },
        if (addText encode st.1 f.1 f.2).2 then
          saveIndex (addText encode st.1 f.1 f.2).1 st.2
        else st.2)

/-- Model of `load_documents_from_folder`: a no-op on a non-empty store,
otherwise each readable file contributes its extracted text and base
metadata. The resolved collection label (explicit argument, or the folder
base name when the folder is not the root) arrives as `col`. -/
def loadFolder {Emb : Type} (encode : String → Emb) (kb : KB Emb) (d : Disk Emb)
    (files : List (String × Option DocMeta)) (col : Option String) : KB Emb × Disk Emb :=
  if kb.documents.length > 0 then (kb, d)
  else files.foldl (ingestFile encode col) (kb, d)

/-- Operations the orchestration layer can run against a live store. -/
inductive KBOp where
  | addTextOp (text : String) (metadata : Option DocMeta)
  | loadFolderOp (files : List (String × Option DocMeta)) (col : Option String)
  | clearOp
  | reloadOp
  deriving Repr

/-- Paired in-memory and on-disk state of one knowledge-base directory. -/
structure BotState (Emb : Type) where
  kb : KB Emb
  disk : Disk Emb
  deriving DecidableEq, Repr

/-- Apply one operation: `clear` empties the arrays and saves, `reload`
constructs a fresh `KnowledgeBase` over the same directory. -/
def applyOp {Emb : Type} (encode : String → Emb) (s : BotState Emb) :
    KBOp → Except PyErr (BotState Emb)
  | .addTextOp text metadata =>
      let r := addText encode s.kb text metadata
      .ok ⟨r.1, if r.2 then saveIndex r.1 s.disk else s.disk⟩
  | .loadFolderOp files col =>
      let r := loadFolder encode s.kb s.disk files col
      .ok ⟨r.1, r.2⟩
  | .clearOp =>
      .ok ⟨emptyKB, saveIndex emptyKB s.disk⟩
  | .reloadOp =>
      (initKB s.disk).map (fun r => ⟨r.1, r.2⟩)

/-- Run a sequence of operations, stopping at the first raised exception. -/
def runOps {Emb : Type} (encode : String → Emb) :
    BotState Emb → List KBOp → Except PyErr (BotState Emb)
  | s, [] => .ok s
  | s, op :: rest =>
      match applyOp encode s op with
      | .ok s2 => runOps encode s2 rest
      | .error e => .error e

/-- Boolean form of the parallel-array length invariant. -/
def kbInvB {Emb : Type} (kb : KB Emb) : Bool :=
  kb.documents.length == kb.metadatas.length &&
    kb.metadatas.length == kb.embeddings.length

/-- Boolean well-formedness of a disk image: whenever both current-format
artifacts are present they parse and agree on length, the state every
`_save_index` leaves behind. -/
def diskOkB {Emb : Type} (d : Disk Emb) : Bool :=
  match d.metaJson, d.embNpy with
  | some (some (ds, ms)), some (some es) =>
      ds.length == ms.length && ms.length == es.length
  | some none, some _ => false
  | some _, some none => false
  | _, _ => true

/-- Python truthiness of an optional string argument: `if collection_name:`
is false for `None` and for the empty string. -/
def truthyS : Option String → Bool
  | none => false
  | some s => s ≠ ""

/-- One record of the list `search` returns. -/
structure SearchResult where
  content : String
  metadata : DocMeta
  distance : ℚ
  deriving DecidableEq, Repr

instance : Inhabited SearchResult := ⟨⟨"", {}, 0⟩⟩

/-- Indices of the chunks whose `collection` metadata equals `cn`, in store
order — the list comprehension over `enumerate(self.metadatas)`. -/
def collFiltered {Emb : Type} (kb : KB Emb) (cn : Option String) : List Nat :=
  (List.range kb.metadatas.length).filter
    (fun i => (kb.metadatas.getD i {}).collection == cn)

/-- Restriction of a candidate list to the chunks whose `category` metadata
equals `cat`. -/
def catFiltered {Emb : Type} (kb : KB Emb) (idxs : List Nat) (cat : Option String) : List Nat :=
  idxs.filter (fun i => (kb.metadatas.getD i {}).category == cat)

/-- Candidate-set construction of `search`. `none` models the early
`return []`: a collection filter matching nothing, a category restriction
inside a collection yielding nothing (lines 201-203 return empty — no
fallback), or a category-only filter matching nothing. -/
def searchCandidates {Emb : Type} (kb : KB Emb) (cn cat : Option String) :
    Option (List Nat) :=
  if truthyS cn then
    if (collFiltered kb cn).isEmpty then none
    else if truthyS cat then
      if (catFiltered kb (collFiltered kb cn) cat).isEmpty then none
      else some (catFiltered kb (collFiltered kb cn) cat)
    else some (collFiltered kb cn)
  else if truthyS cat then
    if (catFiltered kb (List.range kb.metadatas.length) cat).isEmpty then none
    else some (catFiltered kb (List.range kb.metadatas.length) cat)
  else some (List.range kb.documents.length)

/-- Count of distinct query keywords occurring as substrings of the
lower-cased document text. -/
def kwCount (keywords : List String) (docText : String) : Nat :=
  (keywords.filter (fun kw => isSubB kw.toList docText.toList)).length

/-- Keyword set of a query: `set(query.lower().split())`. -/
def queryKeywords (query : String) : List String :=
  (pyWords (pyLower query)).dedup

/-- Blended scores of the candidates, in candidate order: cosine similarity
of the encoded query against each candidate's stored embedding, plus
`min(keyword_matches * per, cap)`. -/
def blendedScores {Emb : Type} [Inhabited Emb] (cosSim : Emb → Emb → ℚ) (qe : Emb)
    (kb : KB Emb) (keywords : List String) (cands : List Nat) (per cap : ℚ) : List ℚ :=
  cands.map (fun j =>
    cosSim qe (kb.embeddings.getD j default) +
      min ((kwCount keywords (pyLower (kb.documents.getD j ""))) * per) cap)

/-- Score looked up at a relative candidate position, with the same
out-of-range default the formatting loop's `except` clause uses. -/
def scoreAt (s : List ℚ) (i : Nat) : ℚ := s.getD i 0

/-- Stable ascending insertion of index `i` into an index list already sorted
by score: `i` goes in front of the first index with a strictly larger score,
so equal scores keep insertion order. -/
def insSorted (s : List ℚ) (i : Nat) : List Nat → List Nat
  | [] => [i]
  | j :: rest =>
      if scoreAt s i < scoreAt s j then i :: j :: rest
      else j :: insSorted s i rest

/-- Model of `np.argsort(scores)`: indices `0..n-1` sorted by ascending
score, equal scores in ascending index order. -/
def argsortAsc (s : List ℚ) : List Nat :=
  (List.range s.length).foldl (fun acc i => insSorted s i acc) []

/-- Python slice `a[-k:]`: the whole list when `k = 0` (because `-0 == 0`),
else the last `k` elements. -/
def pyLastK {α : Type} (l : List α) (k : Nat) : List α :=
  if k = 0 then l else l.drop (l.length - k)

/-- Relative positions selected by `np.argsort(scores)[-k:][::-1]` with
`k = min(n_results, len(scores))`. -/
def topRelIndices (s : List ℚ) (nResults : Nat) : List Nat :=
  (pyLastK (argsortAsc s) (min nResults s.length)).reverse

/-- Boost parameters: per-match 0.15 capped at 0.7 under a collection
filter, per-match 0.10 capped at 0.5 otherwise. -/
def boostParams (collectionActive : Bool) : ℚ × ℚ :=
  if collectionActive then (3/20, 7/10) else (1/10, 1/2)

/-- Blended scores a `search` call computes, exposed for the statements: the
empty list when the call returned before scoring. -/
def searchScores {Emb : Type} [Inhabited Emb] (cosSim : Emb → Emb → ℚ)
    (encode : String → Emb) (kb : KB Emb) (query : String)
    (cn cat : Option String) : List ℚ :=
  match searchCandidates kb cn cat with
  | none => []
  | some cands =>
      let pc := boostParams (truthyS cn)
      blendedScores cosSim (encode query) kb (queryKeywords query) cands pc.1 pc.2

/-- Model of `KnowledgeBase.search`. The formatting loop reads
`final_similarities[rank]` — the blended score at relative position `rank`
of the candidate order, not the selected candidate's own score. -/
def search {Emb : Type} [Inhabited Emb] (cosSim : Emb → Emb → ℚ)
    (encode : String → Emb) (kb : KB Emb) (query : String) (nResults : Nat)
    (cn cat : Option String) : List SearchResult :=
  if kb.documents.length = 0 then []
  else
    match searchCandidates kb cn cat with
    | none => []
    | some cands =>
        (List.range
            (topRelIndices (searchScores cosSim encode kb query cn cat) nResults).length).map
          (fun rank =>
            { content := kb.documents.getD
                (cands.getD
                  ((topRelIndices (searchScores cosSim encode kb query cn cat)
                      nResults).getD rank 0) 0) ""
              metadata := kb.metadatas.getD
                (cands.getD
                  ((topRelIndices (searchScores cosSim encode kb query cn cat)
                      nResults).getD rank 0) 0) {}
              distance := 1 - scoreAt (searchScores cosSim encode kb query cn cat) rank })

example : argsortAsc [0, 0] = [0, 1] := by decide
example : topRelIndices [0, 0] 2 = [1, 0] := by decide
example : topRelIndices [mkRat 1 2, mkRat 1 4, mkRat 3 4] 2 = [2, 0] := by decide

theorem wordsAux_clean (l : List Char) :
    ∀ acc, (∀ c ∈ acc, isWs c = false) →
      ∀ w ∈ wordsAux l acc, w ≠ [] ∧ ∀ c ∈ w, isWs c = false := by
  induction l with
  | nil =>
      intro acc hacc w hw
      unfold wordsAux at hw
      by_cases he : acc.isEmpty
      · simp [he] at hw
      · simp [he] at hw
        subst hw
        refine ⟨?_, ?_⟩
        · simp [List.isEmpty_iff] at he
          simpa using he
        · intro c hc
          exact hacc c (by simpa using hc)
  | cons c rest ih =>
      intro acc hacc w hw
      unfold wordsAux at hw
      by_cases hws : isWs c
      · by_cases he : acc.isEmpty
        · simp [hws, he] at hw
          exact ih [] (by simp) w hw
        · simp [hws, he] at hw
          rcases hw with rfl | hw
          · refine ⟨?_, ?_⟩
            · simp [List.isEmpty_iff] at he
              simpa using he
            · intro x hx
              exact hacc x (by simpa using hx)
          · exact ih [] (by simp) w hw
      · simp [hws] at hw
        refine ih (c :: acc) ?_ w hw
        intro x hx
        rcases List.mem_cons.mp hx with rfl | hx
        · simpa using hws
        · exact hacc x hx

theorem wordsC_clean (l : List Char) :
    ∀ w ∈ wordsC l, w ≠ [] ∧ ∀ c ∈ w, isWs c = false :=
  wordsAux_clean l [] (by simp)

theorem mem_dropWhile_of_mem {c : Char} {l : List Char} (hc : c ∈ l)
    (hw : isWs c = false) : c ∈ l.dropWhile isWs := by
  have hsplit : l.takeWhile isWs ++ l.dropWhile isWs = l :=
    List.takeWhile_append_dropWhile isWs l
  rw [← hsplit] at hc
  rcases List.mem_append.mp hc with h | h
  · exact absurd (List.mem_takeWhile_imp h) (by simp [hw])
  · exact h

theorem stripChars_ne_nil {l : List Char} (h : ∃ c ∈ l, isWs c = false) :
    stripChars l ≠ [] := by
  obtain ⟨c, hc, hw⟩ := h
  unfold stripChars
  have h1 : c ∈ l.dropWhile isWs := mem_dropWhile_of_mem hc hw
  have h2 : c ∈ (l.dropWhile isWs).reverse := List.mem_reverse.mpr h1
  have h3 : c ∈ (l.dropWhile isWs).reverse.dropWhile isWs :=
    mem_dropWhile_of_mem h2 hw
  intro hnil
  rw [List.reverse_eq_nil_iff] at hnil
  rw [hnil] at h3
  simp at h3

theorem joinWords_has_sound (ws : List (List Char))
    (hws : ws ≠ []) (hclean : ∀ w ∈ ws, w ≠ [] ∧ ∀ c ∈ w, isWs c = false) :
    ∃ c ∈ joinWords ws, isWs c = false := by
  match ws with
  | [w] =>
      obtain ⟨hne, hcw⟩ := hclean w (by simp)
      obtain ⟨c, hc⟩ := List.exists_mem_of_ne_nil w hne
      exact ⟨c, by simpa [joinWords] using hc, hcw c hc⟩
  | w :: w2 :: rest =>
      obtain ⟨hne, hcw⟩ := hclean w (by simp)
      obtain ⟨c, hc⟩ := List.exists_mem_of_ne_nil w hne
      refine ⟨c, ?_, hcw c hc⟩
      show c ∈ w ++ ' ' :: joinWords (w2 :: rest)
      exact List.mem_append.mpr (Or.inl hc)

theorem winStarts_one {n : Nat} (h1 : 1 ≤ n) (h2 : n ≤ 450) :
    winStarts n 450 = [0] := by
  unfold winStarts
  have : (n + 450 - 1) / 450 = 1 := by omega
  rw [this]
  rfl

/-- C5. The claim promises, for non-empty text of fewer than 500 words, a
single chunk equal to the trimmed input. The code joins the window's words
with single spaces, so any run of internal whitespace is collapsed:
`"a  b"` chunks to `["a b"]`, not to the trimmed input `"a  b"`. (The
one-chunk part also fails for word counts in 451..499, where the stride of
450 starts a second window.) -/
theorem C5_counterexample :
    chunkText "a  b" = ["a b"] ∧ pyStrip "a  b" = "a  b" ∧
      chunkText "a  b" ≠ [pyStrip "a  b"] :=
  ⟨by decide, by decide, by decide⟩

/-- C5 amended: for every text with at least one word and at most
`chunk_size - overlap = 450` words, `_chunk_text` returns exactly one chunk,
namely the text's whitespace-split words joined by single spaces (equal to
the trimmed input exactly when the input's internal whitespace is already
single spaces). -/
theorem chunkWindowsC_single (ws : List (List Char)) (hne : ws ≠ [])
    (hlen : ws.length ≤ 450)
    (hclean : ∀ w ∈ ws, w ≠ [] ∧ ∀ c ∈ w, isWs c = false) :
    chunkWindowsC ws 500 450 = [joinWords ws] := by
  have h1 : 1 ≤ ws.length := by
    rcases Nat.eq_zero_or_pos ws.length with h | h
    · exact absurd (List.length_eq_zero.mp h) hne
    · exact h
  unfold chunkWindowsC
  rw [winStarts_one h1 hlen]
  have htake : List.take 500 (List.drop 0 ws) = ws := by
    rw [List.drop_zero]
    exact List.take_of_length_le (by omega)
  have hstrip : stripChars (joinWords ws) ≠ [] :=
    stripChars_ne_nil (joinWords_has_sound ws hne hclean)
  simp only [List.filterMap_cons, List.filterMap_nil]
  rw [htake]
  simp [hstrip]

theorem C5_one_chunk_join (text : String)
    (hne : wordsC text.toList ≠ [])
    (hlen : (wordsC text.toList).length ≤ 450) :
    chunkText text = [String.mk (joinWords (wordsC text.toList))] := by
  unfold chunkText
  rw [chunkWindowsC_single (wordsC text.toList) hne hlen (wordsC_clean text.toList)]
  simp

/-- C5 witness: the amended statement at the concrete input
`"hello world"`. -/
theorem C5_one_chunk_join_witness :
    (wordsC "hello world".toList ≠ [] ∧
        (wordsC "hello world".toList).length ≤ 450) ∧
      chunkText "hello world" = [String.mk (joinWords (wordsC "hello world".toList))] :=
  ⟨⟨by decide, by decide⟩, C5_one_chunk_join "hello world" (by decide) (by decide)⟩

/-- C6. The claim promises termination with stride `max(1, chunk_size)`
whenever `chunk_size - overlap <= 0`; the code has no such guard: with
`chunk_size = overlap = 1` the Python `range(0, len(words), 0)` raises
`ValueError: range() arg 3 must not be zero`. -/
theorem C6_counterexample :
    ((1 : Nat) : Int) - ((1 : Nat) : Int) ≤ 0 ∧
      chunkTextE "a b" 1 1 = .error .valueError :=
  ⟨by decide, rfl⟩

/-- C6 amended: when `chunk_size - overlap` is negative the Python range is
empty, so `_chunk_text` terminates normally with the single fallback chunk
`[text]` (no windowing, no exception); when `chunk_size - overlap` is exactly
zero it raises `ValueError` instead of making progress. -/
theorem C6_step_behavior (text : String) (chunkSize overlap : Nat) :
    (((chunkSize : Int) - (overlap : Int) < 0 →
        chunkTextE text chunkSize overlap = .ok [text]) ∧
      ((chunkSize : Int) - (overlap : Int) = 0 →
        chunkTextE text chunkSize overlap = .error .valueError)) := by
  constructor
  · intro h
    unfold chunkTextE
    have h0 : ¬ ((chunkSize : Int) - (overlap : Int) = 0) := by omega
    simp [h0, h]
  · intro h
    unfold chunkTextE
    simp [h]

/-- C6 witness: the amended statement at `chunk_size=3, overlap=5` (negative
step, fallback chunk) and at `chunk_size=2, overlap=2` (zero step,
`ValueError`). -/
theorem C6_step_behavior_witness :
    (((3 : Nat) : Int) - ((5 : Nat) : Int) < 0 ∧
        chunkTextE "a b" 3 5 = .ok ["a b"]) ∧
      (((2 : Nat) : Int) - ((2 : Nat) : Int) = 0 ∧
        chunkTextE "a b" 2 2 = .error .valueError) :=
  ⟨⟨by decide, (C6_step_behavior "a b" 3 5).1 (by decide)⟩,
   ⟨by decide, (C6_step_behavior "a b" 2 2).2 (by decide)⟩⟩

/-- C3. A directory holding only the legacy pickle artifact (no
`metadata.json`, no `embeddings.npy`): `__init__` checks for the two
current-format artifacts, finds them absent, and starts a new empty store —
`_load_index`, the only place the migration lives, is never called, so the
legacy artifact is neither loaded, nor re-saved, nor deleted. (Had
`_load_index` run, its pickle branch would still fail: it reads
`self.index_path`, an attribute `__init__` never defines.) -/
theorem C3_no_migration :
    initKB ({ metaJson := none, embNpy := none, legacyPkl := true } : Disk Unit) =
      .ok (emptyKB, { metaJson := none, embNpy := none, legacyPkl := true }) :=
  rfl

/-- C4. With both current-format artifacts present but `metadata.json`
failing to parse, the caught load error falls through to the pickle branch,
whose first expression reads the undefined attribute `self.index_path`:
construction raises `AttributeError` instead of completing with an empty
store. -/
theorem C4_corrupt_load_raises :
    initKB ({ metaJson := some none,
              embNpy := some (some [()]),
              legacyPkl := false } : Disk Unit) =
      .error .attrError :=
  rfl

/-- C10: `add_text` with blank (empty or whitespace-only) text returns
before chunking: the three arrays are untouched, no save happens, and the
paired disk state is unchanged. -/
theorem C10_blank_text_no_append {Emb : Type} (encode : String → Emb)
    (kb : KB Emb) (d : Disk Emb) (text : String) (metadata : Option DocMeta)
    (h : pyStrip text = "") :
    addText encode kb text metadata = (kb, false) ∧
      applyOp encode ⟨kb, d⟩ (.addTextOp text metadata) = .ok ⟨kb, d⟩ := by
  constructor
  · simp [addText, h]
  · simp [applyOp, addText, h]

/-- C10 witness: whitespace-only text against a one-chunk store. -/
theorem C10_blank_text_no_append_witness :
    pyStrip " \t " = "" ∧
      addText (fun _ => ())
          ({ documents := ["d"], metadatas := [{}], embeddings := [()] } : KB Unit)
          " \t " none =
        ({ documents := ["d"], metadatas := [{}], embeddings := [()] }, false) :=
  ⟨by decide,
    (C10_blank_text_no_append (fun _ => ())
      { documents := ["d"], metadatas := [{}], embeddings := [()] } {} " \t " none
      (by decide)).1⟩

/-- Strict key order behind the stable argsort: ascending score, ties in
ascending original-position order. -/
def ltKey (s : List ℚ) (a b : Nat) : Prop :=
  scoreAt s a < scoreAt s b ∨ (scoreAt s a = scoreAt s b ∧ a < b)

theorem mem_insSorted (s : List ℚ) (i a : Nat) (l : List Nat) :
    a ∈ insSorted s i l ↔ a = i ∨ a ∈ l := by
  induction l with
  | nil => simp [insSorted]
  | cons j rest ih =>
      unfold insSorted
      split <;> simp [List.mem_cons, ih] <;> tauto

theorem length_insSorted (s : List ℚ) (i : Nat) (l : List Nat) :
    (insSorted s i l).length = l.length + 1 := by
  induction l with
  | nil => rfl
  | cons j rest ih =>
      unfold insSorted
      split
      · simp
      · simp [ih]

theorem pairwise_insSorted (s : List ℚ) (i : Nat) (l : List Nat)
    (hl : l.Pairwise (ltKey s)) (hb : ∀ j ∈ l, j < i) :
    (insSorted s i l).Pairwise (ltKey s) := by
  induction l with
  | nil => simp [insSorted]
  | cons j rest ih =>
      rw [List.pairwise_cons] at hl
      obtain ⟨hjrest, hrest⟩ := hl
      unfold insSorted
      split
      · rename_i h
        rw [List.pairwise_cons]
        refine ⟨?_, ?_⟩
        · intro b hbmem
          rcases List.mem_cons.mp hbmem with rfl | hbr
          · exact Or.inl h
          · rcases hjrest b hbr with h2 | ⟨heq, _⟩
            · exact Or.inl (lt_trans h h2)
            · exact Or.inl (heq ▸ h)
        · rw [List.pairwise_cons]
          exact ⟨hjrest, hrest⟩
      · rename_i h
        rw [List.pairwise_cons]
        refine ⟨?_, ih hrest (fun x hx => hb x (List.mem_cons_of_mem j hx))⟩
        intro b hbmem
        rcases (mem_insSorted s i b rest).mp hbmem with rfl | hbr
        · have hji : scoreAt s j ≤ scoreAt s b := not_lt.mp h
          rcases lt_or_eq_of_le hji with h2 | h2
          · exact Or.inl h2
          · exact Or.inr ⟨h2, hb j (List.mem_cons_self j rest)⟩
        · exact hjrest b hbr

theorem argsortAux_spec (s : List ℚ) (n : Nat) :
    (((List.range n).foldl (fun acc i => insSorted s i acc) []).Pairwise (ltKey s)) ∧
      (∀ a ∈ (List.range n).foldl (fun acc i => insSorted s i acc) [], a < n) ∧
      ((List.range n).foldl (fun acc i => insSorted s i acc) []).length = n := by
  induction n with
  | zero => simp
  | succ m ih =>
      obtain ⟨hp, hb, hl⟩ := ih
      rw [List.range_succ, List.foldl_append]
      simp only [List.foldl_cons, List.foldl_nil]
      refine ⟨?_, ?_, ?_⟩
      · exact pairwise_insSorted s m _ hp hb
      · intro a ha
        rcases (mem_insSorted s m a _).mp ha with rfl | ha2
        · omega
        · exact Nat.lt_succ_of_lt (hb a ha2)
      · rw [length_insSorted, hl]

theorem argsortAsc_pairwise (s : List ℚ) : (argsortAsc s).Pairwise (ltKey s) :=
  (argsortAux_spec s s.length).1

theorem argsortAsc_bound (s : List ℚ) : ∀ a ∈ argsortAsc s, a < s.length :=
  (argsortAux_spec s s.length).2.1

theorem argsortAsc_length (s : List ℚ) : (argsortAsc s).length = s.length :=
  (argsortAux_spec s s.length).2.2

theorem topRelIndices_bound (s : List ℚ) (n : Nat) :
    ∀ a ∈ topRelIndices s n, a < s.length := by
  intro a ha
  unfold topRelIndices pyLastK at ha
  rw [List.mem_reverse] at ha
  have hmem : a ∈ argsortAsc s := by
    by_cases hk : min n s.length = 0
    · rw [if_pos hk] at ha
      exact ha
    · rw [if_neg hk] at ha
      exact List.mem_of_mem_drop ha
  exact argsortAsc_bound s a hmem

theorem topRelIndices_length (s : List ℚ) (n : Nat) (hn : 1 ≤ n) (hs : s ≠ []) :
    (topRelIndices s n).length = min n s.length := by
  unfold topRelIndices pyLastK
  have hsl : s.length ≠ 0 := fun h => hs (List.length_eq_zero.mp h)
  have hk : min n s.length ≠ 0 := by omega
  rw [if_neg hk, List.length_reverse, List.length_drop, argsortAsc_length]
  omega

theorem topRelIndices_sorted (s : List ℚ) (n : Nat) :
    (topRelIndices s n).Pairwise (fun a b => ltKey s b a) := by
  unfold topRelIndices pyLastK
  rw [List.pairwise_reverse]
  split
  · exact argsortAsc_pairwise s
  · exact (argsortAsc_pairwise s).sublist (List.drop_sublist _ _)

theorem mem_collFiltered {Emb : Type} (kb : KB Emb) (cn : Option String) (i : Nat)
    (h : i ∈ collFiltered kb cn) : (kb.metadatas.getD i {}).collection = cn := by
  unfold collFiltered at h
  have h2 := (List.mem_filter.mp h).2
  simpa using h2

theorem mem_catFiltered_sub {Emb : Type} (kb : KB Emb) (idxs : List Nat)
    (cat : Option String) (i : Nat) (h : i ∈ catFiltered kb idxs cat) : i ∈ idxs :=
  (List.mem_filter.mp h).1

theorem searchScores_length {Emb : Type} [Inhabited Emb] (cosSim : Emb → Emb → ℚ)
    (encode : String → Emb) (kb : KB Emb) (query : String) (cn cat : Option String)
    (cands : List Nat) (h : searchCandidates kb cn cat = some cands) :
    (searchScores cosSim encode kb query cn cat).length = cands.length := by
  unfold searchScores
  rw [h]
  simp [blendedScores]

theorem searchCandidates_ne_nil {Emb : Type} (kb : KB Emb) (cn cat : Option String)
    (cands : List Nat) (h : searchCandidates kb cn cat = some cands)
    (hne : kb.documents.length ≠ 0) : cands ≠ [] := by
  unfold searchCandidates at h
  split_ifs at h
  all_goals first
    | exact Option.noConfusion h
    | (injection h with h2
       subst h2
       simp_all [List.isEmpty_iff, List.range_eq_nil])

theorem searchCandidates_coll {Emb : Type} (kb : KB Emb) (c : String)
    (cat : Option String) (cands : List Nat) (hc : c ≠ "")
    (h : searchCandidates kb (some c) cat = some cands) :
    ∀ i ∈ cands, (kb.metadatas.getD i {}).collection = some c := by
  intro i hi
  have ht : truthyS (some c) = true := by simp [truthyS, hc]
  unfold searchCandidates at h
  split_ifs at h
  all_goals first
    | exact Option.noConfusion h
    | (injection h with h2
       subst h2
       first
         | exact mem_collFiltered kb (some c) i (mem_catFiltered_sub kb _ cat i hi)
         | exact mem_collFiltered kb (some c) i hi
         | simp_all [truthyS])
    | simp_all [truthyS]

theorem getD_mem_of_lt {α : Type} (l : List α) (d : α) (n : Nat)
    (h : n < l.length) : l.getD n d ∈ l := by
  rw [List.getD_eq_getElem l d h]
  exact List.getElem_mem h

/-- C1. The claim promises a fallback to the collection-only candidate set
when the additional category restriction matches nothing; the code at lines
201-203 instead returns the empty list. With one chunk tagged
`collection="A", category="x"`, searching collection `"A"` with category
`"y"` returns `[]`, while the same search without the category filter
returns one result — there is no fallback. -/
theorem C1_counterexample :
    search (fun _ _ => (0 : ℚ)) (fun _ => ())
        { documents := ["doc0"],
          metadatas := [{ collection := some "A", category := some "x" }],
          embeddings := [()] } "q" 1 (some "A") (some "y") = [] ∧
      (search (fun _ _ => (0 : ℚ)) (fun _ => ())
          { documents := ["doc0"],
            metadatas := [{ collection := some "A", category := some "x" }],
            embeddings := [()] } "q" 1 (some "A") none).length = 1 :=
  ⟨by decide, by decide⟩

/-- C1 amended: when a collection filter (non-empty string) matches at least
one chunk and a category filter (non-empty string) matches none of those
chunks, `search` returns the empty sequence — inside a collection the
category restriction is a hard filter, exactly as it is without a
collection filter. -/
theorem C1_category_hard_empty {Emb : Type} [Inhabited Emb]
    (cosSim : Emb → Emb → ℚ) (encode : String → Emb) (kb : KB Emb)
    (query : String) (nResults : Nat) (c g : String) (hc : c ≠ "") (hg : g ≠ "")
    (hcoll : collFiltered kb (some c) ≠ [])
    (hcat : catFiltered kb (collFiltered kb (some c)) (some g) = []) :
    search cosSim encode kb query nResults (some c) (some g) = [] := by
  have hsc : searchCandidates kb (some c) (some g) = none := by
    unfold searchCandidates
    simp [truthyS, hc, hg, List.isEmpty_iff, hcoll, hcat]
  unfold search
  simp [hsc]

/-- C1 witness: the amended statement at the concrete one-chunk store. -/
theorem C1_category_hard_empty_witness :
    ("A" ≠ "" ∧ "y" ≠ "" ∧
        collFiltered
          ({ documents := ["doc0"],
             metadatas := [{ collection := some "A", category := some "x" }],
             embeddings := [()] } : KB Unit) (some "A") ≠ [] ∧
        catFiltered
          ({ documents := ["doc0"],
             metadatas := [{ collection := some "A", category := some "x" }],
             embeddings := [()] } : KB Unit)
          (collFiltered
            ({ documents := ["doc0"],
               metadatas := [{ collection := some "A", category := some "x" }],
               embeddings := [()] } : KB Unit) (some "A")) (some "y") = []) ∧
      search (fun _ _ => (0 : ℚ)) (fun _ => ())
          { documents := ["doc0"],
            metadatas := [{ collection := some "A", category := some "x" }],
            embeddings := [()] } "q" 1 (some "A") (some "y") = [] :=
  ⟨⟨by decide, by decide, by decide, by decide⟩,
    C1_category_hard_empty (fun _ _ => (0 : ℚ)) (fun _ => ())
      { documents := ["doc0"],
        metadatas := [{ collection := some "A", category := some "x" }],
        embeddings := [()] } "q" 1 "A" "y"
      (by decide) (by decide) (by decide) (by decide)⟩

/-- C9. Python truthiness: `if collection_name:` is false for the empty
string, so `search(..., collection_filter="")` silently skips collection
filtering and returns chunks of any collection — here a chunk tagged
`collection="A"`, which does not equal the filter value `""`. -/
theorem C9_counterexample :
    (search (fun _ _ => (0 : ℚ)) (fun _ => ())
        { documents := ["xx"], metadatas := [{ collection := some "A" }],
          embeddings := [()] } "q" 1 (some "") none).length = 1 ∧
      ((search (fun _ _ => (0 : ℚ)) (fun _ => ())
          { documents := ["xx"], metadatas := [{ collection := some "A" }],
            embeddings := [()] } "q" 1 (some "") none).getD 0
          default).metadata.collection = some "A" ∧
      some "A" ≠ some "" :=
  ⟨by decide, by decide, by decide⟩

/-- C9 amended: for every non-empty collection filter string, `search`
returns only records whose `collection` metadata equals the filter exactly,
and returns the empty sequence when no chunk matches; an empty-string
filter is falsy in Python and is treated as no filter at all. -/
theorem C9_collection_filter {Emb : Type} [Inhabited Emb]
    (cosSim : Emb → Emb → ℚ) (encode : String → Emb) (kb : KB Emb)
    (query : String) (nResults : Nat) (c : String) (cat : Option String)
    (hc : c ≠ "") :
    (∀ r ∈ search cosSim encode kb query nResults (some c) cat,
        r.metadata.collection = some c) ∧
      (collFiltered kb (some c) = [] →
        search cosSim encode kb query nResults (some c) cat = []) := by
  constructor
  · intro r hr
    unfold search at hr
    by_cases hed : kb.documents.length = 0
    · rw [if_pos hed] at hr
      simp at hr
    · rw [if_neg hed] at hr
      cases hsc : searchCandidates kb (some c) cat with
      | none =>
          rw [hsc] at hr
          simp at hr
      | some cands =>
          rw [hsc] at hr
          obtain ⟨rank, hrank, hf⟩ := List.mem_map.mp hr
          rw [← hf]
          apply searchCandidates_coll kb c cat cands hc hsc
          have hlen : (searchScores cosSim encode kb query (some c) cat).length =
              cands.length :=
            searchScores_length cosSim encode kb query (some c) cat cands hsc
          have hrank2 : rank <
              (topRelIndices (searchScores cosSim encode kb query (some c) cat)
                nResults).length := by
            simpa using List.mem_range.mp hrank
          have hrel : (topRelIndices (searchScores cosSim encode kb query (some c) cat)
              nResults).getD rank 0 ∈
              topRelIndices (searchScores cosSim encode kb query (some c) cat)
                nResults :=
            getD_mem_of_lt _ 0 rank hrank2
          have hbound := topRelIndices_bound
            (searchScores cosSim encode kb query (some c) cat) nResults _ hrel
          rw [hlen] at hbound
          exact getD_mem_of_lt cands 0 _ hbound
  · intro hcoll
    have hsc : searchCandidates kb (some c) cat = none := by
      unfold searchCandidates
      simp [truthyS, hc, List.isEmpty_iff, hcoll]
    unfold search
    simp [hsc]

/-- C9 witness: the amended statement at a concrete one-chunk store with
collection `"A"`. -/
theorem C9_collection_filter_witness :
    "A" ≠ "" ∧
      ((∀ r ∈ search (fun _ _ => (0 : ℚ)) (fun _ => ())
            { documents := ["xx"], metadatas := [{ collection := some "A" }],
              embeddings := [()] } "q" 1 (some "A") none,
          r.metadata.collection = some "A") ∧
        (collFiltered
            ({ documents := ["xx"], metadatas := [{ collection := some "A" }],
               embeddings := [()] } : KB Unit) (some "A") = [] →
          search (fun _ _ => (0 : ℚ)) (fun _ => ())
              { documents := ["xx"], metadatas := [{ collection := some "A" }],
                embeddings := [()] } "q" 1 (some "A") none = [])) :=
  ⟨by decide,
    C9_collection_filter (fun _ _ => (0 : ℚ)) (fun _ => ())
      { documents := ["xx"], metadatas := [{ collection := some "A" }],
        embeddings := [()] } "q" 1 "A" none (by decide)⟩

/-- C2 amended: the `i`-th returned record's distance is `1 -` the blended
score at relative position `i` of the candidate order
(`final_similarities[rank]`), not the score of the `i`-th selected candidate;
the two agree only when the selection permutation fixes the first `k`
positions. -/
theorem C2_distance_uses_rank {Emb : Type} [Inhabited Emb]
    (cosSim : Emb → Emb → ℚ) (encode : String → Emb) (kb : KB Emb)
    (query : String) (nResults : Nat) (cn cat : Option String) (i : Nat)
    (hi : i < (search cosSim encode kb query nResults cn cat).length) :
    ((search cosSim encode kb query nResults cn cat).getD i default).distance =
      1 - scoreAt (searchScores cosSim encode kb query cn cat) i := by
  unfold search at hi ⊢
  by_cases hed : kb.documents.length = 0
  · rw [if_pos hed] at hi
    simp at hi
  · rw [if_neg hed] at hi ⊢
    cases hsc : searchCandidates kb cn cat with
    | none =>
        rw [hsc] at hi
        simp at hi
    | some cands =>
        rw [hsc] at hi
        simp only [] at hi ⊢
        rw [List.getD_eq_getElem _ _ hi]
        rw [List.getElem_map]
        simp

/-- C2 witness: the amended statement at rank 0 of a single-chunk store. -/
theorem C2_distance_uses_rank_witness :
    0 < (search (fun _ _ => (0 : ℚ)) (fun _ => ())
        { documents := ["xx"], metadatas := [{}], embeddings := [()] }
        "q" 1 none none).length ∧
      ((search (fun _ _ => (0 : ℚ)) (fun _ => ())
          { documents := ["xx"], metadatas := [{}], embeddings := [()] }
          "q" 1 none none).getD 0 default).distance =
        1 - scoreAt (searchScores (fun _ _ => (0 : ℚ)) (fun _ => ())
          { documents := ["xx"], metadatas := [{}], embeddings := [()] }
          "q" none none) 0 :=
  ⟨by decide,
    C2_distance_uses_rank (fun _ _ => (0 : ℚ)) (fun _ => ())
      { documents := ["xx"], metadatas := [{}], embeddings := [()] }
      "q" 1 none none 0 (by decide)⟩

/-- Two-chunk store driving the C2 counterexample: the query keyword
`hello` boosts only the second chunk, so the candidate order and the
selected order differ. -/
def kbC2 : KB Unit :=
  { documents := ["xx", "hello"], metadatas := [{}, {}], embeddings := [(), ()] }

theorem kbC2_candidates : searchCandidates kbC2 none none = some [0, 1] := by
  decide

theorem kbC2_scores :
    searchScores (fun _ _ => (0 : ℚ)) (fun _ => ()) kbC2 "hello" none none =
      [0, mkRat 1 10] := by
  have k0 : kwCount (queryKeywords "hello") (pyLower "xx") = 0 := by decide
  have k1 : kwCount (queryKeywords "hello") (pyLower "hello") = 1 := by decide
  unfold searchScores
  rw [kbC2_candidates]
  simp only []
  unfold blendedScores boostParams truthyS
  simp only [Bool.false_eq_true, if_false, List.map_cons, List.map_nil]
  norm_num [kbC2, k0, k1, Rat.mkRat_eq_div]

theorem kbC2_rel : topRelIndices [0, mkRat 1 10] 2 = [1, 0] := by decide

theorem kbC2_search :
    search (fun _ _ => (0 : ℚ)) (fun _ => ()) kbC2 "hello" 2 none none =
      [{ content := "hello", metadata := {}, distance := 1 },
       { content := "xx", metadata := {}, distance := 1 - mkRat 1 10 }] := by
  unfold search
  rw [kbC2_candidates]
  simp only []
  rw [kbC2_scores, kbC2_rel]
  norm_num [kbC2, scoreAt, List.range_succ]

/-- C2. At the two-chunk store `kbC2` with query `"hello"`, the rank-0
record selects the candidate at relative position 1 (content `"hello"`,
blended score `1/10`), yet its reported distance is `1 - final_similarities[0]
= 1 - 0 = 1`, not `1 - 1/10`: the distance is computed from the rank
position in candidate order, not from the selected candidate itself. -/
theorem C2_counterexample :
    ((search (fun _ _ => (0 : ℚ)) (fun _ => ()) kbC2 "hello" 2 none none).getD 0
        default).content = "hello" ∧
      scoreAt (searchScores (fun _ _ => (0 : ℚ)) (fun _ => ()) kbC2 "hello" none none)
          1 = mkRat 1 10 ∧
      ((search (fun _ _ => (0 : ℚ)) (fun _ => ()) kbC2 "hello" 2 none none).getD 0
          default).distance = 1 ∧
      ((search (fun _ _ => (0 : ℚ)) (fun _ => ()) kbC2 "hello" 2 none none).getD 0
          default).distance ≠ 1 - mkRat 1 10 := by
  refine ⟨?_, ?_, ?_, ?_⟩
  · rw [kbC2_search]
    rfl
  · rw [kbC2_scores]
    rfl
  · rw [kbC2_search]
    rfl
  · rw [kbC2_search]
    norm_num [Rat.mkRat_eq_div]

/-- C7 amended: for `n_results ≥ 1`, `search` returns exactly
`min(n_results, candidate_count)` records, ranked by descending blended
score — but ties are broken toward the candidate occurring LATER in the
original candidate order (the ascending `argsort`'s last-`k` slice is
reversed, so equal scores come out in descending original position), and
with `n_results = 0` the slice `[-0:]` is the whole list, returning every
candidate instead of zero. -/
theorem C7_ranking {Emb : Type} [Inhabited Emb] (cosSim : Emb → Emb → ℚ)
    (encode : String → Emb) (kb : KB Emb) (query : String) (nResults : Nat)
    (cn cat : Option String) (cands : List Nat)
    (hsc : searchCandidates kb cn cat = some cands)
    (hne : kb.documents.length ≠ 0) (hn : 1 ≤ nResults) :
    (search cosSim encode kb query nResults cn cat).length =
        min nResults cands.length ∧
      (topRelIndices (searchScores cosSim encode kb query cn cat)
          nResults).Pairwise
        (fun a b => ltKey (searchScores cosSim encode kb query cn cat) b a) := by
  have hlen : (searchScores cosSim encode kb query cn cat).length = cands.length :=
    searchScores_length cosSim encode kb query cn cat cands hsc
  have hcne : cands ≠ [] := searchCandidates_ne_nil kb cn cat cands hsc hne
  have hsne : searchScores cosSim encode kb query cn cat ≠ [] := by
    intro h0
    apply hcne
    apply List.length_eq_zero.mp
    rw [← hlen, h0]
    rfl
  constructor
  · unfold search
    rw [if_neg hne, hsc]
    simp only []
    rw [List.length_map, List.length_range]
    rw [topRelIndices_length _ _ hn hsne, hlen]
  · exact topRelIndices_sorted _ _

/-- C7 witness: the amended statement at a one-chunk store with
`n_results = 1`. -/
theorem C7_ranking_witness :
    (searchCandidates
          ({ documents := ["doc0"], metadatas := [{}], embeddings := [()] } : KB Unit)
          none none = some [0] ∧
        ({ documents := ["doc0"], metadatas := [{}],
            embeddings := [()] } : KB Unit).documents.length ≠ 0 ∧
        1 ≤ 1) ∧
      ((search (fun _ _ => (0 : ℚ)) (fun _ => ())
            { documents := ["doc0"], metadatas := [{}], embeddings := [()] }
            "q" 1 none none).length = min 1 ([0] : List Nat).length ∧
        (topRelIndices (searchScores (fun _ _ => (0 : ℚ)) (fun _ => ())
            { documents := ["doc0"], metadatas := [{}], embeddings := [()] }
            "q" none none) 1).Pairwise
          (fun a b => ltKey (searchScores (fun _ _ => (0 : ℚ)) (fun _ => ())
            { documents := ["doc0"], metadatas := [{}], embeddings := [()] }
            "q" none none) b a)) :=
  ⟨⟨by decide, by decide, by decide⟩,
    C7_ranking (fun _ _ => (0 : ℚ)) (fun _ => ())
      { documents := ["doc0"], metadatas := [{}], embeddings := [()] }
      "q" 1 none none [0] (by decide) (by decide) (by decide)⟩

/-- Two-chunk store with equal blended scores for the C7 counterexample. -/
def kbC7 : KB Unit :=
  { documents := ["aa", "bb"], metadatas := [{}, {}], embeddings := [(), ()] }

theorem kbC7_candidates : searchCandidates kbC7 none none = some [0, 1] := by
  decide

theorem kbC7_scores :
    searchScores (fun _ _ => (0 : ℚ)) (fun _ => ()) kbC7 "zz" none none =
      [0, 0] := by
  have k0 : kwCount (queryKeywords "zz") (pyLower "aa") = 0 := by decide
  have k1 : kwCount (queryKeywords "zz") (pyLower "bb") = 0 := by decide
  unfold searchScores
  rw [kbC7_candidates]
  simp only []
  unfold blendedScores boostParams truthyS
  simp only [Bool.false_eq_true, if_false, List.map_cons, List.map_nil]
  norm_num [kbC7, k0, k1]

theorem kbC7_search :
    search (fun _ _ => (0 : ℚ)) (fun _ => ()) kbC7 "zz" 2 none none =
      [{ content := "bb", metadata := {}, distance := 1 },
       { content := "aa", metadata := {}, distance := 1 }] := by
  unfold search
  rw [kbC7_candidates]
  simp only []
  rw [kbC7_scores]
  rw [show topRelIndices [(0 : ℚ), 0] 2 = [1, 0] from by decide]
  norm_num [kbC7, scoreAt, List.range_succ]

/-- C7. Both chunks of `kbC7` have blended score 0 for query `"zz"`, yet the
search returns chunk 1 (`"bb"`) before chunk 0 (`"aa"`): equal scores are
broken toward the later original candidate, not the earlier one. And with
`n_results = 0` the claim demands `min(0, 2) = 0` results, but the Python
slice `[-0:]` selects the whole list, so 2 records come back. -/
theorem C7_counterexample :
    scoreAt (searchScores (fun _ _ => (0 : ℚ)) (fun _ => ()) kbC7 "zz" none none)
        0 =
      scoreAt (searchScores (fun _ _ => (0 : ℚ)) (fun _ => ()) kbC7 "zz" none none)
        1 ∧
      ((search (fun _ _ => (0 : ℚ)) (fun _ => ()) kbC7 "zz" 2 none none).getD 0
          default).content = "bb" ∧
      ((search (fun _ _ => (0 : ℚ)) (fun _ => ()) kbC7 "zz" 2 none none).getD 1
          default).content = "aa" ∧
      (search (fun _ _ => (0 : ℚ)) (fun _ => ()) kbC7 "zz" 0 none none).length = 2 := by
  refine ⟨?_, ?_, ?_, ?_⟩
  · rw [kbC7_scores]
    rfl
  · rw [kbC7_search]
    rfl
  · rw [kbC7_search]
    rfl
  · unfold search
    rw [kbC7_candidates]
    simp only []
    rw [kbC7_scores]
    rw [show topRelIndices [(0 : ℚ), 0] 0 = [1, 0] from by decide]
    rfl

theorem kbInvB_iff {Emb : Type} (kb : KB Emb) :
    kbInvB kb = true ↔
      (kb.documents.length = kb.metadatas.length ∧
        kb.metadatas.length = kb.embeddings.length) := by
  simp [kbInvB]

theorem addText_inv {Emb : Type} (encode : String → Emb) (kb : KB Emb)
    (text : String) (metadata : Option DocMeta) (h : kbInvB kb = true) :
    kbInvB (addText encode kb text metadata).1 = true := by
  rw [kbInvB_iff] at h ⊢
  unfold addText
  split
  · exact h
  · simp
    omega

theorem saveIndex_ok {Emb : Type} (kb : KB Emb) (d : Disk Emb)
    (h : kbInvB kb = true) : diskOkB (saveIndex kb d) = true := by
  rw [kbInvB_iff] at h
  simp [saveIndex, diskOkB]
  exact h

theorem kbInvB_empty {Emb : Type} : kbInvB (emptyKB : KB Emb) = true := rfl

theorem initKB_ok {Emb : Type} (d : Disk Emb) (hd : diskOkB d = true) :
    ∃ kb, initKB d = .ok (kb, d) ∧ kbInvB kb = true := by
  rcases d with ⟨mj, en, lp⟩
  rcases mj with _ | mj2
  · exact ⟨emptyKB, by simp [initKB], kbInvB_empty⟩
  · rcases en with _ | en2
    · exact ⟨emptyKB, by simp [initKB], kbInvB_empty⟩
    · rcases mj2 with _ | ⟨ds, ms⟩
      · simp [diskOkB] at hd
      · rcases en2 with _ | es
        · simp [diskOkB] at hd
        · refine ⟨⟨ds, ms, es⟩, ?_, ?_⟩
          · simp [initKB, loadIndex, Except.map]
          · simp [diskOkB] at hd
            rw [kbInvB_iff]
            exact hd

theorem stampMeta_length (c : String) (b : Nat) :
    ∀ i (l : List DocMeta), (stampMeta c b i l).length = l.length := by
  intro i l
  induction l generalizing i with
  | nil => rfl
  | cons m rest ih => simp [stampMeta, ih]

theorem ingestFile_inv {Emb : Type} (encode : String → Emb) (col : Option String)
    (st : KB Emb × Disk Emb) (f : String × Option DocMeta)
    (h1 : kbInvB st.1 = true) (h2 : diskOkB st.2 = true) :
    kbInvB (ingestFile encode col st f).1 = true ∧
      diskOkB (ingestFile encode col st f).2 = true := by
  have ha := addText_inv encode st.1 f.1 f.2 h1
  have hdisk : diskOkB (if (addText encode st.1 f.1 f.2).2 then
      saveIndex (addText encode st.1 f.1 f.2).1 st.2 else st.2) = true := by
    by_cases hs : (addText encode st.1 f.1 f.2).2
    · rw [if_pos hs]
      exact saveIndex_ok _ _ ha
    · rw [if_neg hs]
      exact h2
  cases col with
  | none => exact ⟨ha, hdisk⟩
  | some c =>
      refine ⟨?_, hdisk⟩
      show kbInvB ({ (addText encode st.1 f.1 f.2).1 with
          metadatas := stampMeta c st.1.documents.length 0
            (addText encode st.1 f.1 f.2).1.metadatas }) = true
      rw [kbInvB_iff] at ha ⊢
      simpa [stampMeta_length] using ha

theorem foldl_ingest_inv {Emb : Type} (encode : String → Emb) (col : Option String)
    (files : List (String × Option DocMeta)) :
    ∀ st : KB Emb × Disk Emb, kbInvB st.1 = true → diskOkB st.2 = true →
      kbInvB (files.foldl (ingestFile encode col) st).1 = true ∧
        diskOkB (files.foldl (ingestFile encode col) st).2 = true := by
  induction files with
  | nil => exact fun st h1 h2 => ⟨h1, h2⟩
  | cons f rest ih =>
      intro st h1 h2
      obtain ⟨g1, g2⟩ := ingestFile_inv encode col st f h1 h2
      exact ih _ g1 g2

theorem loadFolder_inv {Emb : Type} (encode : String → Emb) (kb : KB Emb)
    (d : Disk Emb) (files : List (String × Option DocMeta)) (col : Option String)
    (h1 : kbInvB kb = true) (h2 : diskOkB d = true) :
    kbInvB (loadFolder encode kb d files col).1 = true ∧
      diskOkB (loadFolder encode kb d files col).2 = true := by
  unfold loadFolder
  split
  · exact ⟨h1, h2⟩
  · exact foldl_ingest_inv encode col files (kb, d) h1 h2

theorem applyOp_inv {Emb : Type} (encode : String → Emb) (s : BotState Emb)
    (op : KBOp) (s2 : BotState Emb)
    (h1 : kbInvB s.kb = true) (h2 : diskOkB s.disk = true)
    (h : applyOp encode s op = .ok s2) :
    kbInvB s2.kb = true ∧ diskOkB s2.disk = true := by
  cases op with
  | addTextOp text metadata =>
      unfold applyOp at h
      injection h with h3
      subst h3
      refine ⟨addText_inv encode s.kb text metadata h1, ?_⟩
      by_cases hs : (addText encode s.kb text metadata).2
      · simp only [hs, if_true]
        exact saveIndex_ok _ _ (addText_inv encode s.kb text metadata h1)
      · simp only [hs, if_false]
        simpa [hs] using h2
  | loadFolderOp files col =>
      unfold applyOp at h
      injection h with h3
      subst h3
      exact loadFolder_inv encode s.kb s.disk files col h1 h2
  | clearOp =>
      unfold applyOp at h
      injection h with h3
      subst h3
      exact ⟨kbInvB_empty, saveIndex_ok _ _ kbInvB_empty⟩
  | reloadOp =>
      unfold applyOp at h
      obtain ⟨kb2, hinit, hkb2⟩ := initKB_ok s.disk h2
      rw [hinit] at h
      simp only [Except.map] at h
      injection h with h3
      subst h3
      exact ⟨hkb2, h2⟩

theorem runOps_inv {Emb : Type} (encode : String → Emb) (ops : List KBOp) :
    ∀ s s2 : BotState Emb, kbInvB s.kb = true → diskOkB s.disk = true →
      runOps encode s ops = .ok s2 →
      kbInvB s2.kb = true ∧ diskOkB s2.disk = true := by
  induction ops with
  | nil =>
      intro s s2 h1 h2 h
      injection h with h3
      subst h3
      exact ⟨h1, h2⟩
  | cons op rest ih =>
      intro s s2 h1 h2 h
      unfold runOps at h
      cases hap : applyOp encode s op with
      | ok smid =>
          rw [hap] at h
          simp only [] at h
          obtain ⟨g1, g2⟩ := applyOp_inv encode s op smid h1 h2 hap
          exact ih smid s2 g1 g2 h
      | error e =>
          rw [hap] at h
          simp at h

/-- C8: starting from a construction over a well-formed (or absent) disk
image, every store state reachable through `add_text`, folder ingestion,
`clear` and reload operations keeps the three parallel arrays at equal
length — every mutation appends to, resets, or reloads all three together. -/
theorem C8_parallel_arrays {Emb : Type} (encode : String → Emb) (d0 : Disk Emb)
    (kb0 : KB Emb) (d0x : Disk Emb) (ops : List KBOp) (s : BotState Emb)
    (hd : diskOkB d0 = true) (hinit : initKB d0 = .ok (kb0, d0x))
    (hrun : runOps encode ⟨kb0, d0x⟩ ops = .ok s) :
    s.kb.documents.length = s.kb.metadatas.length ∧
      s.kb.metadatas.length = s.kb.embeddings.length := by
  obtain ⟨kb2, hinit2, hkb2⟩ := initKB_ok d0 hd
  rw [hinit2] at hinit
  injection hinit with h3
  have h4 : kb2 = kb0 := congrArg Prod.fst h3
  have h5 : d0 = d0x := congrArg Prod.snd h3
  subst h4
  subst h5
  have hres := runOps_inv encode ops ⟨kb2, d0⟩ s hkb2 hd hrun
  exact (kbInvB_iff s.kb).mp hres.1

/-- C8 witness: one `add_text` run from a fresh store over an empty disk. -/
theorem C8_parallel_arrays_witness :
    (diskOkB ({} : Disk Unit) = true ∧
        initKB ({} : Disk Unit) = .ok (emptyKB, {}) ∧
        runOps (fun _ => ()) ⟨emptyKB, {}⟩ [.addTextOp "a b" none] =
          .ok ⟨{ documents := ["a b"], metadatas := [{ chunkIndex := some 0 }],
                  embeddings := [()] },
                { metaJson := some (some (["a b"], [{ chunkIndex := some 0 }])),
                  embNpy := some (some [()]), legacyPkl := false }⟩) ∧
      (({ documents := ["a b"], metadatas := [{ chunkIndex := some 0 }],
            embeddings := [()] } : KB Unit).documents.length =
          ({ documents := ["a b"], metadatas := [{ chunkIndex := some 0 }],
              embeddings := [()] } : KB Unit).metadatas.length ∧
        ({ documents := ["a b"], metadatas := [{ chunkIndex := some 0 }],
            embeddings := [()] } : KB Unit).metadatas.length =
          ({ documents := ["a b"], metadatas := [{ chunkIndex := some 0 }],
              embeddings := [()] } : KB Unit).embeddings.length) :=
  ⟨⟨rfl, rfl, rfl⟩,
    C8_parallel_arrays (fun _ => ()) {} emptyKB {} [.addTextOp "a b" none]
      ⟨{ documents := ["a b"], metadatas := [{ chunkIndex := some 0 }],
          embeddings := [()] },
        { metaJson := some (some (["a b"], [{ chunkIndex := some 0 }])),
          embNpy := some (some [()]), legacyPkl := false }⟩
      rfl rfl rfl⟩
